import Mathlib

/-!
Verification development for the ssh-orchestrator repository.

Shallow embedding of the interactive SSH session layer:
* `helpers/text_processor.py` — pure text transforms (`clean_text`, `strip_ansi`,
  `clean`, `filter_lines`, `dedent`), modelled over `List Char` (a decoded
  Python string).
* `helpers/ssh_manager.py` — the session state machine
  (`connect`, `wait_for_prompt`, `execute_command`,
  `execute_commands_from_file`, `SSHCommandExecutor.__init__`), modelled over a
  simulated transport: the channel is a list of poll events, each either
  `none` (recv_ready() returned False for that loop iteration) or
  `some chunk` (recv() returned that decoded chunk); wall-clock timeouts are
  modelled by a budget of loop iterations.

Regular-expression patterns (Python `re` patterns used for prompts and for
`filter_lines`) are modelled by Mathlib's `RegularExpression Char`;
`re.search` is modelled by `searchB` (some contiguous substring matches).
-/

namespace SshOrch

open RegularExpression

/-- The ESC character 0x1B starting an ANSI CSI sequence. -/
def escChar : Char := '\x1B'

/-- The backspace character 0x08. -/
def backspaceChar : Char := '\x08'

/-- Auxiliary loop of `clean_text`: the Python loop pushes every
non-backspace character on a stack and pops on a backspace (popping an empty
stack is a no-op, `List.tail [] = []`). -/
def clean_textGo (stack : List Char) : List Char → List Char
  | [] => stack.reverse
  | c :: cs =>
    if c = backspaceChar then clean_textGo stack.tail cs
    else clean_textGo (c :: stack) cs

/-- `clean_text` from text_processor.py: resolve backspaces against the
preceding retained characters. -/
def clean_text (s : List Char) : List Char := clean_textGo [] s

/-- Parameter bytes of a CSI sequence: the Python regex class `[0-?]`,
codepoints 0x30–0x3F. -/
def isParamByte (c : Char) : Bool := 0x30 ≤ c.toNat && c.toNat ≤ 0x3F

/-- Intermediate bytes of a CSI sequence: the class from space to slash, 0x20–0x2F. -/
def isInterByte (c : Char) : Bool := 0x20 ≤ c.toNat && c.toNat ≤ 0x2F

/-- Final bytes of a CSI sequence: the class `[@-~]`, 0x40–0x7E. -/
def isFinalByte (c : Char) : Bool := 0x40 ≤ c.toNat && c.toNat ≤ 0x7E

/-- Given the characters following an ESC, try to parse bracket, params,
intermediates, final
(the rest of the pattern of `strip_ansi`, with the second class running from
space to slash); on success return the remainder of
the input.  The three character classes are pairwise disjoint, so the greedy
scan is equivalent to the backtracking regex match. -/
def parseCSI (l : List Char) : Option (List Char) :=
  match l with
  | c :: t =>
    if c = '[' then
      match (t.dropWhile isParamByte).dropWhile isInterByte with
      | d :: rest => if isFinalByte d then some rest else none
      | [] => none
    else none
  | [] => none

/-- Fuelled scanner for `strip_ansi`.  A match of the regex
of `strip_ansi` can only begin at an ESC character and never
contains another ESC, so `re.sub(..., "", text)`'s left-to-right
non-overlapping scan is: at each ESC try `parseCSI` on the rest; drop the
matched sequence on success, otherwise keep the character.  Fuel (initially
the length of the input, which the scan never exceeds) keeps the recursion
structural so that terms reduce definitionally. -/
def stripAnsiFuel : Nat → List Char → List Char
  | 0, l => l
  | _ + 1, [] => []
  | fuel + 1, c :: cs =>
    if c = escChar then
      match parseCSI cs with
      | some rest => stripAnsiFuel fuel rest
      | none => c :: stripAnsiFuel fuel cs
    else c :: stripAnsiFuel fuel cs

/-- `strip_ansi` from text_processor.py: `re.sub` of the CSI pattern with the
empty string. -/
def strip_ansi (s : List Char) : List Char := stripAnsiFuel s.length s

/-- `clean` from text_processor.py: `clean_text(strip_ansi(text))`. -/
def clean (s : List Char) : List Char := clean_text (strip_ansi s)

/-- Does the text contain (at some position) a removable CSI sequence,
i.e. a match of the `strip_ansi` regex? -/
def hasCSI : List Char → Bool
  | [] => false
  | c :: cs => (c = escChar && (parseCSI cs).isSome) || hasCSI cs

/-- Python line-boundary characters recognised by `str.splitlines`. -/
def isLineBreak (c : Char) : Bool :=
  c = '\n' || c = '\r' || c = '\x0b' || c = '\x0c' ||
  c = '\x1c' || c = '\x1d' || c = '\x1e' || c = '\x85' ||
  c = '\u2028' || c = '\u2029'

/-- Auxiliary loop of `splitlines`: `prevCR` records that the previous
character was a `\r` whose line was already emitted, so that an immediately
following `\n` is consumed silently (a `\r\n` pair is one boundary).
`cur` holds the current line, reversed. -/
def slGo : Bool → List Char → List Char → List (List Char)
  | _, cur, [] => if cur.isEmpty then [] else [cur.reverse]
  | prevCR, cur, c :: rest =>
    if c = '\n' && prevCR then slGo false cur rest
    else if isLineBreak c then cur.reverse :: slGo (c = '\r') [] rest
    else slGo false (c :: cur) rest

/-- Python `str.splitlines()` (without `keepends`): boundaries terminate
lines, `\r\n` counts as a single boundary, and a trailing segment is emitted
only if nonempty. -/
def splitlines (l : List Char) : List (List Char) := slGo false [] l

/-- `"\n".join(lines)`. -/
def joinLines : List (List Char) → List Char
  | [] => []
  | [l] => l
  | l :: ls => l ++ '\n' :: joinLines ls

/-- Python whitespace stripped by `str.strip()` / `str.lstrip()`
(the ASCII whitespace characters, which is what terminal output contains). -/
def isPySpace (c : Char) : Bool :=
  c = ' ' || c = '\t' || c = '\n' || c = '\r' || c = '\x0b' || c = '\x0c'

/-- `str.lstrip()`. -/
def lstrip (l : List Char) : List Char := l.dropWhile isPySpace

/-- `str.strip()`. -/
def pyStrip (l : List Char) : List Char :=
  ((l.dropWhile isPySpace).reverse.dropWhile isPySpace).reverse

/-- Does some prefix of `s` match the regex, i.e. would Python's engine find
a match starting at this position? -/
def matchesHere (p : RegularExpression Char) (s : List Char) : Bool :=
  s.inits.any fun m => p.rmatch m

/-- `re.search(p, s)` for a pure regex: some contiguous substring of `s`
matches `p`.  Scans every start position. -/
def searchB (p : RegularExpression Char) : List Char → Bool
  | [] => matchesHere p []
  | c :: cs => matchesHere p (c :: cs) || searchB p cs

/-- `filter_lines` from text_processor.py.  The source receives pattern
strings and compiles them; here the patterns arrive already compiled as
`RegularExpression Char`.  A line is kept iff no pattern matches in it. -/
def filter_lines (text : List Char) (pats : List (RegularExpression Char)) : List Char :=
  joinLines ((splitlines text).filter fun line => !(pats.any fun p => searchB p line))

/-- `dedent` from text_processor.py: `"\n".join(line.lstrip() for line in
text.splitlines())`. -/
def dedent (text : List Char) : List Char :=
  joinLines ((splitlines text).map lstrip)

/-- `pat.isPrefixOf s` for character lists (empty pattern always matches). -/
def startsWith : List Char → List Char → Bool
  | [], _ => true
  | _ :: _, [] => false
  | p :: ps, c :: cs => p = c && startsWith ps cs

/-- Python's `pat in s` substring test. -/
def containsSub (pat : List Char) : List Char → Bool
  | [] => startsWith pat []
  | c :: cs => startsWith pat (c :: cs) || containsSub pat cs

/-- Fuelled worker for `removeAll` (fuel keeps recursion structural; it is
initialised to the input length, which the scan never exceeds). -/
def removeAllFuel : Nat → List Char → List Char → List Char
  | 0, _, s => s
  | _ + 1, _, [] => []
  | fuel + 1, pat, c :: cs =>
    if !pat.isEmpty && startsWith pat (c :: cs) then
      removeAllFuel fuel pat (cs.drop (pat.length - 1))
    else c :: removeAllFuel fuel pat cs

/-- Python `s.replace(pat, "")` for a nonempty `pat`: a single left-to-right
pass removing non-overlapping occurrences (the result is not rescanned). -/
def removeAll (pat s : List Char) : List Char := removeAllFuel s.length pat s

/-- Fuelled worker for `countOcc`. -/
def countOccFuel : Nat → List Char → List Char → Nat
  | 0, _, _ => 0
  | _ + 1, _, [] => 0
  | fuel + 1, pat, c :: cs =>
    if !pat.isEmpty && startsWith pat (c :: cs) then
      countOccFuel fuel pat (cs.drop (pat.length - 1)) + 1
    else countOccFuel fuel pat cs

/-- `s.count(pat)`: number of non-overlapping occurrences of `pat` in `s`,
scanning left to right. -/
def countOcc (pat s : List Char) : Nat := countOccFuel s.length pat s

/-- The regex matching exactly a literal string (how `re.compile` treats a
pattern without metacharacters). -/
def reLit : List Char → RegularExpression Char
  | [] => RegularExpression.epsilon
  | c :: cs => RegularExpression.comp (RegularExpression.char c) (reLit cs)

/-- The pagination marker `"--More--"`. -/
def moreMarker : List Char := "--More--".toList

/-- The pagination marker `"(END)"`. -/
def endMarker : List Char := "(END)".toList

/-- Pagination handling of one received chunk in `execute_command`
(ssh_manager.py lines 229–235): if the raw chunk contains `"--More--"`, a
single space is sent and all its occurrences are replaced away; if the
resulting chunk contains `"(END)"`, a single `"q"` is sent and its
occurrences are replaced away.  Returns the processed chunk text and the
keystrokes sent, in order. -/
def processChunk (chunk : List Char) : List Char × List (List Char) :=
  let more := containsSub moreMarker chunk
  let c1 := if more then removeAll moreMarker chunk else chunk
  let s1 : List (List Char) := if more then [[' ']] else []
  let isEnd := containsSub endMarker c1
  let c2 := if isEnd then removeAll endMarker c1 else c1
  let s2 : List (List Char) := if isEnd then [['q']] else []
  (c2, s1 ++ s2)

/-- The contribution of one received chunk to the accumulated buffer of
`execute_command`: `clean` of the chunk after pagination-marker removal. -/
def chunkContribution (c : List Char) : List Char := clean (processChunk c).1

/-- The pager keystrokes sent while handling one received chunk. -/
def chunkKeystrokes (c : List Char) : List (List Char) := (processChunk c).2

/-- Observable trace of one `execute_command` receive loop:
the accumulated (per-chunk cleaned) buffer, the pager keystrokes sent, the
raw chunks received, the number of loop iterations run, and whether the loop
ended by raising `TimeoutError` instead of matching the prompt. -/
structure ExecTrace where
  raw : List Char
  pagerSent : List (List Char)
  chunks : List (List Char)
  iters : Nat
  timedOut : Bool
deriving DecidableEq, Repr

/-- The receive loop of `execute_command` (ssh_manager.py lines 226–241).
Each iteration: if a chunk is ready it is received, pagination markers are
handled, and `clean` of the processed chunk is appended to the buffer; then
the prompt regex is searched in the whole buffer (break on a match); then
the timeout check fires if the iteration budget is exhausted. -/
def execLoop (p : RegularExpression Char) (events : List (Option (List Char)))
    (budget : Nat) (acc : List Char) (sent : List (List Char))
    (chunks : List (List Char)) (iters : Nat) : ExecTrace :=
  let step :
      List Char × List (List Char) × List (List Char) × List (Option (List Char)) :=
    match events with
    | some c :: rest => (acc ++ chunkContribution c, sent ++ chunkKeystrokes c, chunks ++ [c], rest)
    | none :: rest => (acc, sent, chunks, rest)
    | [] => (acc, sent, chunks, [])
  match step with
  | (acc', sent', chunks', rest) =>
    if searchB p acc' then ⟨acc', sent', chunks', iters + 1, false⟩
    else
      match budget with
      | 0 => ⟨acc', sent', chunks', iters + 1, true⟩
      | b + 1 => execLoop p rest b acc' sent' chunks' (iters + 1)

/-- The trace of a run of `execute_command`'s receive loop from the initial
state (empty buffer, nothing sent, nothing received). -/
def exec_trace (p : RegularExpression Char) (events : List (Option (List Char)))
    (budget : Nat) : ExecTrace :=
  execLoop p events budget [] [] [] 0

/-- `execute_command` (ssh_manager.py lines 199–251) over a simulated
transport.  `cmdRe` models `re.compile(cmd)` — the command string is compiled
as a regex by `filter_lines` — and `promptRe` models the compiled prompt.
Returns `none` when the loop raises `TimeoutError`, otherwise the dedented,
filtered output. -/
def execute_command (cmdRe promptRe : RegularExpression Char)
    (events : List (Option (List Char))) (budget : Nat) : Option (List Char) :=
  let t := exec_trace promptRe events budget
  if t.timedOut then none
  else some (dedent (filter_lines t.raw [cmdRe, promptRe]))

/-- `wait_for_prompt` (ssh_manager.py lines 148–197) over a simulated
transport.  Each loop iteration inspects one poll event; a received chunk is
searched for the prompt ON ITS OWN (the source does not accumulate);
`budget` is the number of iterations the wall-clock timeout allows.  Returns
`true` when the prompt is detected and `false` when the loop raises
`TimeoutError`. -/
def wait_for_prompt (p : RegularExpression Char) :
    List (Option (List Char)) → Nat → Bool
  | _, 0 => false
  | events, b + 1 =>
    match events with
    | some chunk :: rest => if searchB p chunk then true else wait_for_prompt p rest b
    | none :: rest => wait_for_prompt p rest b
    | [] => wait_for_prompt p [] b

/-- Outcome of one authentication attempt of the paramiko transport stub:
success, `paramiko.AuthenticationException`/`SSHException` (carrying a cause
identifier), or `socket.error` (carrying a cause identifier). -/
inductive AttemptResult where
  | ok : AttemptResult
  | authErr (cause : Nat) : AttemptResult
  | sockErr (cause : Nat) : AttemptResult
deriving DecidableEq, Repr

/-- How `connect` returned: normally, or raising `ConnectionError` from the
last auth failure, or raising `ConnectionError` from a socket error.
`noAttempt` is the fall-through return when the retry loop runs zero
iterations (retries = 0 in the source makes `for attempt in range(1, 1)` do
nothing and `connect` return without connecting). -/
inductive ConnectOutcome where
  | success : ConnectOutcome
  | noAttempt : ConnectOutcome
  | connectionErrorAuth (lastCause : Nat) : ConnectOutcome
  | connectionErrorSocket (cause : Nat) : ConnectOutcome
deriving DecidableEq, Repr

/-- Observable trace of `connect`: attempts made, times `time.sleep(delay)`
ran, and how the call ended. -/
structure ConnectTrace where
  attempts : Nat
  sleeps : Nat
  outcome : ConnectOutcome
deriving DecidableEq, Repr

/-- The retry loop of `connect` (ssh_manager.py lines 87–126), at attempt
number `attempt` with `rem + 1` attempts remaining (so `rem = 0` means this
is the last attempt).  Auth/SSH failures sleep and retry unless on the last
attempt, where they raise `ConnectionError`; a socket error raises
`ConnectionError` at once. -/
def connectGo (outcomes : Nat → AttemptResult) (attempt : Nat) :
    Nat → ConnectTrace
  | 0 => ⟨0, 0, .noAttempt⟩
  | rem + 1 =>
    match outcomes attempt with
    | .ok => ⟨1, 0, .success⟩
    | .sockErr c => ⟨1, 0, .connectionErrorSocket c⟩
    | .authErr c =>
      if rem = 0 then ⟨1, 0, .connectionErrorAuth c⟩
      else
        let t := connectGo outcomes (attempt + 1) rem
        ⟨t.attempts + 1, t.sleeps + 1, t.outcome⟩

/-- `connect(retries)` against a transport stub whose attempt number `i`
(1-based) yields `outcomes i`. -/
def connect (outcomes : Nat → AttemptResult) (retries : Nat) : ConnectTrace :=
  connectGo outcomes 1 retries

/-- Python truthiness of an optional string argument: `None` and the empty
string are falsy. -/
def truthy : Option (List Char) → Bool
  | none => false
  | some s => !s.isEmpty

/-- Result of `SSHCommandExecutor.__init__`: either the constructed instance
(recording the two credential fields) or the `ValueError` raised. -/
inductive InitResult where
  | ok (password keyFilename : Option (List Char)) : InitResult
  | valueError : InitResult
deriving DecidableEq, Repr

/-- `SSHCommandExecutor.__init__` credential check (ssh_manager.py lines
57–60): raise `ValueError` iff `not self.password and not
self.key_filename`; else the instance is constructed. -/
def executorInit (password keyFilename : Option (List Char)) : InitResult :=
  if !truthy password && !truthy keyFilename then .valueError
  else .ok password keyFilename

/-- How `connect` authenticates (ssh_manager.py line 89): the key file
branch is taken iff `self.key_filename` is truthy. -/
def usesKeyAuth (keyFilename : Option (List Char)) : Bool := truthy keyFilename

/-- The commands source seen by `execute_commands_from_file`:
`self.commands_file` unset (`ValueError`), set but not a file
(`FileNotFoundError`), or readable with the given lines. -/
inductive CommandsSource where
  | unspecified : CommandsSource
  | missing : CommandsSource
  | present (lines : List (List Char)) : CommandsSource

/-- Observable trace of `execute_commands_from_file`: the (stripped,
non-blank) commands that were executed, whether `confirm_close` ran, and
whether the call raised. -/
structure RunnerTrace where
  executed : List (List Char)
  closed : Bool
  raised : Bool
deriving DecidableEq, Repr

/-- The command loop of `execute_commands_from_file`: strip each line, skip
blanks, execute the rest in order; `execOk i` tells whether the `i`-th
`execute_command` call (0-based, counting only executed commands) succeeds
or raises.  Returns executed commands and whether an error aborted the
loop. -/
def runCommands (execOk : Nat → Bool) : Nat → List (List Char) → List (List Char) × Bool
  | _, [] => ([], false)
  | idx, raw :: rest =>
    let c := pyStrip raw
    if c.isEmpty then runCommands execOk idx rest
    else if execOk idx then
      match runCommands execOk (idx + 1) rest with
      | (ex, err) => (c :: ex, err)
    else ([c], true)

/-- `execute_commands_from_file` (ssh_manager.py lines 315–352).  The two
validation failures raise BEFORE the try/finally, so `confirm_close` does
not run on those paths; once the file is read, the loop runs inside the
try and `confirm_close` runs on the `finally` path whether or not a command
raised. -/
def execute_commands_from_file (src : CommandsSource) (execOk : Nat → Bool) :
    RunnerTrace :=
  match src with
  | .unspecified => ⟨[], false, true⟩
  | .missing => ⟨[], false, true⟩
  | .present lines =>
    match runCommands execOk 0 lines with
    | (ex, err) => ⟨ex, true, err⟩

/-! ## Lemmas and claim theorems: connection retry (`connect`) -/

/-- If attempts `attempt, …, attempt+d-1` all fail with auth errors and
attempt `attempt+d` fails with a socket error, the loop stops right there:
`d+1` attempts, `d` sleeps (one between each pair of auth failures), and the
socket `ConnectionError`. -/
lemma connectGo_sockErr (outcomes : Nat → AttemptResult) :
    ∀ d rem attempt c, d < rem →
      (∀ i, attempt ≤ i → i < attempt + d → ∃ ca, outcomes i = AttemptResult.authErr ca) →
      outcomes (attempt + d) = AttemptResult.sockErr c →
      connectGo outcomes attempt rem =
        ⟨d + 1, d, ConnectOutcome.connectionErrorSocket c⟩ := by
  intro d
  induction d with
  | zero =>
    intro rem attempt c hd _ hsock
    rw [Nat.add_zero] at hsock
    match rem, hd with
    | r + 1, _ =>
      simp only [connectGo, hsock]
  | succ d ih =>
    intro rem attempt c hd hauth hsock
    match rem, hd with
    | r + 1, _ =>
      obtain ⟨ca, hca⟩ := hauth attempt (Nat.le_refl _) (by omega)
      have hr : ¬(r = 0) := by omega
      have h1 : connectGo outcomes (attempt + 1) r =
          ⟨d + 1, d, ConnectOutcome.connectionErrorSocket c⟩ := by
        apply ih r (attempt + 1) c (by omega)
        · intro i hi hilt
          exact hauth i (by omega) (by omega)
        · have he : attempt + 1 + d = attempt + (d + 1) := by omega
          rw [he]; exact hsock
      simp only [connectGo, hca, if_neg hr, h1]

/-- Unfolding of one iteration of the `connect` retry loop. -/
lemma connectGo_succ_eq (outcomes : Nat → AttemptResult) (attempt r : Nat) :
    connectGo outcomes attempt (r + 1) =
      match outcomes attempt with
      | AttemptResult.ok => ⟨1, 0, ConnectOutcome.success⟩
      | AttemptResult.sockErr c => ⟨1, 0, ConnectOutcome.connectionErrorSocket c⟩
      | AttemptResult.authErr c =>
        if r = 0 then ⟨1, 0, ConnectOutcome.connectionErrorAuth c⟩
        else ⟨(connectGo outcomes (attempt + 1) r).attempts + 1,
              (connectGo outcomes (attempt + 1) r).sleeps + 1,
              (connectGo outcomes (attempt + 1) r).outcome⟩ := rfl

/-- An auth failure on the very last attempt raises `ConnectionError` from
its cause. -/
lemma connectGo_auth_last (outcomes : Nat → AttemptResult) (attempt ca : Nat)
    (hca : outcomes attempt = AttemptResult.authErr ca) :
    connectGo outcomes attempt 1 = ⟨1, 0, ConnectOutcome.connectionErrorAuth ca⟩ := by
  rw [connectGo_succ_eq, hca]
  rfl

/-- An auth failure with attempts remaining sleeps once and retries. -/
lemma connectGo_auth_step (outcomes : Nat → AttemptResult) (attempt r ca : Nat)
    (hca : outcomes attempt = AttemptResult.authErr ca) (hr : ¬(r = 0)) :
    connectGo outcomes attempt (r + 1) =
      ⟨(connectGo outcomes (attempt + 1) r).attempts + 1,
       (connectGo outcomes (attempt + 1) r).sleeps + 1,
       (connectGo outcomes (attempt + 1) r).outcome⟩ := by
  rw [connectGo_succ_eq, hca]
  exact if_neg hr

/-- If every attempt from `attempt` through `attempt+rem-1` fails with an
auth error, the loop makes all `rem` attempts, sleeps `rem-1` times, and
raises `ConnectionError` from the cause of the last attempt. -/
lemma connectGo_allAuth (outcomes : Nat → AttemptResult) (causes : Nat → Nat) :
    ∀ rem attempt, 1 ≤ rem →
      (∀ i, attempt ≤ i → i < attempt + rem → outcomes i = AttemptResult.authErr (causes i)) →
      connectGo outcomes attempt rem =
        ⟨rem, rem - 1, ConnectOutcome.connectionErrorAuth (causes (attempt + rem - 1))⟩ := by
  intro rem
  induction rem with
  | zero => intro attempt h; omega
  | succ r ih =>
    intro attempt _ hall
    have hatt : outcomes attempt = AttemptResult.authErr (causes attempt) :=
      hall attempt (Nat.le_refl _) (by omega)
    match r, ih with
    | 0, _ =>
      rw [connectGo_auth_last outcomes attempt _ hatt]
      simp
    | r' + 1, ih =>
      have h1 := ih (attempt + 1) (by omega)
        (fun i hi hilt => hall i (by omega) (by omega))
      rw [connectGo_auth_step outcomes attempt (r' + 1) _ hatt (by omega), h1]
      have he1 : attempt + 1 + (r' + 1) - 1 = attempt + (r' + 1 + 1) - 1 := by omega
      simp [he1]

/-- If attempts `attempt, …, attempt+k-1` fail with auth errors and attempt
`attempt+k` succeeds, the loop returns success after `k+1` attempts and `k`
sleeps. -/
lemma connectGo_okAfter (outcomes : Nat → AttemptResult) :
    ∀ k rem attempt, k < rem →
      (∀ i, attempt ≤ i → i < attempt + k → ∃ ca, outcomes i = AttemptResult.authErr ca) →
      outcomes (attempt + k) = AttemptResult.ok →
      connectGo outcomes attempt rem = ⟨k + 1, k, ConnectOutcome.success⟩ := by
  intro k
  induction k with
  | zero =>
    intro rem attempt hk _ hok
    rw [Nat.add_zero] at hok
    match rem, hk with
    | r + 1, _ =>
      simp only [connectGo, hok]
  | succ k ih =>
    intro rem attempt hk hauth hok
    match rem, hk with
    | r + 1, _ =>
      obtain ⟨ca, hca⟩ := hauth attempt (Nat.le_refl _) (by omega)
      have hr : ¬(r = 0) := by omega
      have h1 : connectGo outcomes (attempt + 1) r = ⟨k + 1, k, ConnectOutcome.success⟩ := by
        apply ih r (attempt + 1) (by omega)
        · intro i hi hilt
          exact hauth i (by omega) (by omega)
        · have he : attempt + 1 + k = attempt + (k + 1) := by omega
          rw [he]; exact hok
      simp only [connectGo, hca, if_neg hr, h1]

/-- C4: for every retry policy, if a connect attempt fails with a
transport-level socket error (after any number of earlier auth failures),
`connect` raises `ConnectionError` immediately: the failing attempt is the
last one made and no sleep follows it, regardless of how many attempts
remain. -/
theorem C4_theorem (outcomes : Nat → AttemptResult) (retries k c : Nat)
    (hk1 : 1 ≤ k) (hk2 : k ≤ retries)
    (hprev : ∀ i, 1 ≤ i → i < k → ∃ ca, outcomes i = AttemptResult.authErr ca)
    (hsock : outcomes k = AttemptResult.sockErr c) :
    connect outcomes retries = ⟨k, k - 1, ConnectOutcome.connectionErrorSocket c⟩ := by
  unfold connect
  have h := connectGo_sockErr outcomes (k - 1) retries 1 c (by omega)
    (fun i hi hilt => hprev i hi (by omega))
    (by have he : 1 + (k - 1) = k := by omega
        rw [he]; exact hsock)
  rw [h]
  have he : k - 1 + 1 = k := by omega
  rw [he]

/-- Witness for C4: auth failure on attempt 1, socket error on attempt 2,
with 5 retries allowed: exactly 2 attempts, 1 sleep, socket
`ConnectionError`. -/
theorem C4_witness :
    connect (fun i => if i = 2 then AttemptResult.sockErr 9 else AttemptResult.authErr 1) 5 =
      ⟨2, 1, ConnectOutcome.connectionErrorSocket 9⟩ := by
  refine C4_theorem _ 5 2 9 (by omega) (by omega) ?_ (by rfl)
  intro i hi hilt
  have hiv : i = 1 := by omega
  subst hiv
  exact ⟨1, rfl⟩

/-- C5: for every `retries = n ≥ 1`: if authentication fails on every
attempt, `connect` makes exactly `n` attempts, sleeps exactly `n-1` times,
and raises `ConnectionError` carrying the cause of the last attempt; if
authentication fails on the first `k < n` attempts and then succeeds,
`connect` returns after exactly `k+1` attempts. -/
theorem C5_theorem (outcomes : Nat → AttemptResult) (causes : Nat → Nat) (n : Nat)
    (hn : 1 ≤ n) :
    ((∀ i, 1 ≤ i → i ≤ n → outcomes i = AttemptResult.authErr (causes i)) →
      connect outcomes n = ⟨n, n - 1, ConnectOutcome.connectionErrorAuth (causes n)⟩)
    ∧ (∀ k, k + 1 ≤ n →
        (∀ i, 1 ≤ i → i ≤ k → outcomes i = AttemptResult.authErr (causes i)) →
        outcomes (k + 1) = AttemptResult.ok →
        connect outcomes n = ⟨k + 1, k, ConnectOutcome.success⟩) := by
  constructor
  · intro hall
    unfold connect
    have h := connectGo_allAuth outcomes causes n 1 hn
      (fun i hi hilt => hall i hi (by omega))
    rw [h]
    have he : 1 + n - 1 = n := by omega
    rw [he]
  · intro k hk hfail hok
    unfold connect
    apply connectGo_okAfter outcomes k n 1 (by omega)
    · intro i hi hilt
      exact ⟨causes i, hfail i hi (by omega)⟩
    · have he : 1 + k = k + 1 := by omega
      rw [he]; exact hok

/-- Witness for C5: with a stub failing every attempt with cause 7,
`connect(retries=3)` makes 3 attempts, 2 sleeps, and raises with cause 7;
with a stub failing twice then succeeding, `connect(retries=3)` succeeds
after exactly 3 attempts. -/
theorem C5_witness :
    connect (fun _ => AttemptResult.authErr 7) 3 =
      ⟨3, 2, ConnectOutcome.connectionErrorAuth 7⟩ ∧
    connect (fun i => if i ≤ 2 then AttemptResult.authErr 0 else AttemptResult.ok) 3 =
      ⟨3, 2, ConnectOutcome.success⟩ := by
  constructor
  · exact (C5_theorem (fun _ => AttemptResult.authErr 7) (fun _ => 7) 3 (by omega)).1
      (fun i _ _ => rfl)
  · refine (C5_theorem (fun i => if i ≤ 2 then AttemptResult.authErr 0 else AttemptResult.ok)
      (fun _ => 0) 3 (by omega)).2 2 (by omega) ?_ (by rfl)
    intro i hi hle
    rw [if_pos hle]

/-! ## Claim theorems: constructor credential check -/

/-- C6 counterexample: supplying BOTH a password and a key file is accepted
by `SSHCommandExecutor.__init__` (no `ValueError`), although the claim says
exactly one credential mechanism may be set and both-present is rejected. -/
theorem C6_counterexample :
    truthy (some "p".toList) = true ∧ truthy (some "k".toList) = true ∧
    executorInit (some "p".toList) (some "k".toList) =
      InitResult.ok (some "p".toList) (some "k".toList) := by
  decide

/-- C6 (amended): construction succeeds exactly when AT LEAST ONE credential
mechanism is set (truthy); only the absence of both raises `ValueError`;
when both are given construction succeeds (and `connect` then takes the
key-authentication branch, `usesKeyAuth`). -/
theorem C6_amended (password keyFilename : Option (List Char)) :
    (executorInit password keyFilename = InitResult.ok password keyFilename ↔
      truthy password = true ∨ truthy keyFilename = true) ∧
    usesKeyAuth keyFilename = truthy keyFilename := by
  refine ⟨?_, rfl⟩
  unfold executorInit
  cases hp : truthy password <;> cases hk : truthy keyFilename <;> simp

/-! ## Claim theorems: `wait_for_prompt` -/

/-- C1 counterexample: a prompt whose match spans two successive chunks is
NOT detected by `wait_for_prompt` — the source searches each received chunk
on its own, never the accumulated output — so the call times out even though
the accumulated output matches the pattern. -/
theorem C1_counterexample :
    wait_for_prompt (reLit "ab".toList) [some "a".toList, some "b".toList] 10 = false ∧
    searchB (reLit "ab".toList) ("a".toList ++ "b".toList) = true := by
  decide

/-- C1 (amended): `wait_for_prompt` succeeds exactly when SOME INDIVIDUAL
received chunk matches the pattern within the iteration budget (each loop
iteration inspects one poll event); a match that only spans two chunks is
not detected, and with no per-chunk match the call ends in
`PromptTimeoutError` (`false`). -/
theorem C1_amended (p : RegularExpression Char) (events : List (Option (List Char)))
    (budget : Nat) :
    wait_for_prompt p events budget = true ↔
      ∃ i, i < budget ∧ ∃ c, events[i]? = some (some c) ∧ searchB p c = true := by
  induction budget generalizing events with
  | zero => simp [wait_for_prompt]
  | succ b ih =>
    match events with
    | [] =>
      rw [show wait_for_prompt p [] (b + 1) = wait_for_prompt p [] b from rfl, ih []]
      simp
    | some chunk :: rest =>
      rw [show wait_for_prompt p (some chunk :: rest) (b + 1) =
            (if searchB p chunk then true else wait_for_prompt p rest b) from rfl]
      cases hs : searchB p chunk with
      | true =>
        simp only [hs, if_true]
        constructor
        · intro _
          exact ⟨0, Nat.succ_pos b, chunk, by simp, hs⟩
        · intro _
          trivial
      | false =>
        simp only [hs, if_false, Bool.false_eq_true]
        rw [ih rest]
        constructor
        · rintro ⟨i, hi, c, hc, hsc⟩
          exact ⟨i + 1, by omega, c, by simpa using hc, hsc⟩
        · rintro ⟨i, hi, c, hc, hsc⟩
          match i with
          | 0 =>
            have : chunk = c := by simpa using hc
            rw [← this] at hsc
            rw [hsc] at hs
            cases hs
          | i + 1 =>
            exact ⟨i, by omega, c, by simpa using hc, hsc⟩
    | none :: rest =>
      rw [show wait_for_prompt p (none :: rest) (b + 1) = wait_for_prompt p rest b from rfl]
      rw [ih rest]
      constructor
      · rintro ⟨i, hi, c, hc, hsc⟩
        exact ⟨i + 1, by omega, c, by simpa using hc, hsc⟩
      · rintro ⟨i, hi, c, hc, hsc⟩
        match i with
        | 0 => simp at hc
        | i + 1 =>
          exact ⟨i, by omega, c, by simpa using hc, hsc⟩

/-! ## Claim theorems: `strip_ansi` idempotence -/

/-- Text containing no match of the CSI pattern is left unchanged by the
`strip_ansi` scan, for any fuel. -/
lemma stripAnsiFuel_no_csi : ∀ fuel l, hasCSI l = false → stripAnsiFuel fuel l = l := by
  intro fuel
  induction fuel with
  | zero => intro l _; rfl
  | succ f ih =>
    intro l hl
    match l with
    | [] => rfl
    | c :: cs =>
      have h1 : (decide (c = escChar) && (parseCSI cs).isSome) = false ∧ hasCSI cs = false := by
        simpa [hasCSI] using hl
      by_cases hc : c = escChar
      · have hnone : parseCSI cs = none := by
          cases hp : parseCSI cs with
          | none => rfl
          | some r =>
            exfalso
            have := h1.1
            rw [hp] at this
            simp [hc] at this
        show stripAnsiFuel (f + 1) (c :: cs) = c :: cs
        simp only [stripAnsiFuel, if_pos hc, hnone]
        rw [ih cs h1.2]
      · show stripAnsiFuel (f + 1) (c :: cs) = c :: cs
        simp only [stripAnsiFuel, if_neg hc]
        rw [ih cs h1.2]

/-- C8 counterexample: `strip_ansi` is NOT idempotent.  On
`"\x1b[\x1b[0m0m"` the single `re.sub` pass removes the inner sequence and
thereby glues together a new escape sequence, which a second application
removes. -/
theorem C8_counterexample :
    strip_ansi (strip_ansi "\x1b[\x1b[0m0m".toList) ≠
      strip_ansi "\x1b[\x1b[0m0m".toList := by
  decide

/-- C8 (amended): `strip_ansi` is idempotent on every string whose first
pass leaves no escape sequence behind, i.e. whenever removing the matches
does not glue the parts of another CSI sequence together (`hasCSI` of the
result is false); a string where removal re-forms a sequence is the one
exception. -/
theorem C8_amended (x : List Char) (h : hasCSI (strip_ansi x) = false) :
    strip_ansi (strip_ansi x) = strip_ansi x :=
  stripAnsiFuel_no_csi _ _ h

/-- Witness for C8: the spec's own example `"\x1b[31mRED\x1b[0m"` strips to
`"RED"`, whose re-strip is itself. -/
theorem C8_witness :
    hasCSI (strip_ansi "\x1b[31mRED\x1b[0m".toList) = false ∧
    strip_ansi (strip_ansi "\x1b[31mRED\x1b[0m".toList) =
      strip_ansi "\x1b[31mRED\x1b[0m".toList ∧
    strip_ansi "\x1b[31mRED\x1b[0m".toList = "RED".toList :=
  ⟨by decide, C8_amended _ (by decide), by decide⟩

/-! ## Lemmas: shape of an `execute_command` receive-loop run -/

/-- Unfolding of the last loop iteration when a chunk is ready. -/
lemma execLoop_cons_some_zero (p : RegularExpression Char) (c : List Char)
    (rest : List (Option (List Char))) (acc : List Char)
    (sent chunks : List (List Char)) (iters : Nat) :
    execLoop p (some c :: rest) 0 acc sent chunks iters =
      (if searchB p (acc ++ chunkContribution c)
       then ⟨acc ++ chunkContribution c, sent ++ chunkKeystrokes c, chunks ++ [c],
             iters + 1, false⟩
       else ⟨acc ++ chunkContribution c, sent ++ chunkKeystrokes c, chunks ++ [c],
             iters + 1, true⟩) := rfl

/-- Unfolding of a non-final loop iteration when a chunk is ready. -/
lemma execLoop_cons_some_succ (p : RegularExpression Char) (c : List Char)
    (rest : List (Option (List Char))) (b : Nat) (acc : List Char)
    (sent chunks : List (List Char)) (iters : Nat) :
    execLoop p (some c :: rest) (b + 1) acc sent chunks iters =
      (if searchB p (acc ++ chunkContribution c)
       then ⟨acc ++ chunkContribution c, sent ++ chunkKeystrokes c, chunks ++ [c],
             iters + 1, false⟩
       else execLoop p rest b (acc ++ chunkContribution c)
              (sent ++ chunkKeystrokes c) (chunks ++ [c]) (iters + 1)) := rfl

/-- Unfolding of the last loop iteration when no chunk is ready. -/
lemma execLoop_cons_none_zero (p : RegularExpression Char)
    (rest : List (Option (List Char))) (acc : List Char)
    (sent chunks : List (List Char)) (iters : Nat) :
    execLoop p (none :: rest) 0 acc sent chunks iters =
      (if searchB p acc
       then ⟨acc, sent, chunks, iters + 1, false⟩
       else ⟨acc, sent, chunks, iters + 1, true⟩) := rfl

/-- Unfolding of a non-final loop iteration when no chunk is ready. -/
lemma execLoop_cons_none_succ (p : RegularExpression Char)
    (rest : List (Option (List Char))) (b : Nat) (acc : List Char)
    (sent chunks : List (List Char)) (iters : Nat) :
    execLoop p (none :: rest) (b + 1) acc sent chunks iters =
      (if searchB p acc
       then ⟨acc, sent, chunks, iters + 1, false⟩
       else execLoop p rest b acc sent chunks (iters + 1)) := rfl

/-- Unfolding of the last loop iteration after the events are exhausted. -/
lemma execLoop_nil_zero (p : RegularExpression Char) (acc : List Char)
    (sent chunks : List (List Char)) (iters : Nat) :
    execLoop p [] 0 acc sent chunks iters =
      (if searchB p acc
       then ⟨acc, sent, chunks, iters + 1, false⟩
       else ⟨acc, sent, chunks, iters + 1, true⟩) := rfl

/-- Unfolding of a non-final loop iteration after the events are
exhausted. -/
lemma execLoop_nil_succ (p : RegularExpression Char) (b : Nat) (acc : List Char)
    (sent chunks : List (List Char)) (iters : Nat) :
    execLoop p [] (b + 1) acc sent chunks iters =
      (if searchB p acc
       then ⟨acc, sent, chunks, iters + 1, false⟩
       else execLoop p [] b acc sent chunks (iters + 1)) := rfl

/-- Every run of the receive loop extends the initial state homomorphically:
the final buffer is the initial buffer followed by the per-chunk cleaned
contributions of the newly received chunks, in order, and likewise for the
pager keystrokes. -/
lemma execLoop_shape (p : RegularExpression Char) :
    ∀ (budget : Nat) (events : List (Option (List Char))) (acc : List Char)
      (sent chunks : List (List Char)) (iters : Nat),
      ∃ (newChunks : List (List Char)) (n : Nat) (timed : Bool),
        execLoop p events budget acc sent chunks iters =
          ⟨acc ++ (newChunks.map chunkContribution).flatten,
           sent ++ (newChunks.map chunkKeystrokes).flatten,
           chunks ++ newChunks, iters + n, timed⟩ := by
  intro budget
  induction budget with
  | zero =>
    intro events acc sent chunks iters
    match events with
    | [] =>
      refine ⟨[], 1, ?_⟩
      rw [execLoop_nil_zero]
      by_cases h : searchB p acc = true
      · exact ⟨false, by simp [h]⟩
      · refine ⟨true, ?_⟩
        rw [if_neg (by simpa using h)]
        simp
    | none :: rest =>
      refine ⟨[], 1, ?_⟩
      rw [execLoop_cons_none_zero]
      by_cases h : searchB p acc = true
      · exact ⟨false, by simp [h]⟩
      · refine ⟨true, ?_⟩
        rw [if_neg (by simpa using h)]
        simp
    | some c :: rest =>
      refine ⟨[c], 1, ?_⟩
      rw [execLoop_cons_some_zero]
      by_cases h : searchB p (acc ++ chunkContribution c) = true
      · exact ⟨false, by simp [h]⟩
      · refine ⟨true, ?_⟩
        rw [if_neg (by simpa using h)]
        simp
  | succ b ih =>
    intro events acc sent chunks iters
    match events with
    | [] =>
      rw [execLoop_nil_succ]
      by_cases h : searchB p acc = true
      · refine ⟨[], 1, false, ?_⟩
        simp [h]
      · rw [if_neg (by simpa using h)]
        obtain ⟨new, n, timed, hrec⟩ := ih [] acc sent chunks (iters + 1)
        refine ⟨new, n + 1, timed, ?_⟩
        rw [hrec]
        have he : iters + 1 + n = iters + (n + 1) := by omega
        rw [he]
    | none :: rest =>
      rw [execLoop_cons_none_succ]
      by_cases h : searchB p acc = true
      · refine ⟨[], 1, false, ?_⟩
        simp [h]
      · rw [if_neg (by simpa using h)]
        obtain ⟨new, n, timed, hrec⟩ := ih rest acc sent chunks (iters + 1)
        refine ⟨new, n + 1, timed, ?_⟩
        rw [hrec]
        have he : iters + 1 + n = iters + (n + 1) := by omega
        rw [he]
    | some c :: rest =>
      rw [execLoop_cons_some_succ]
      by_cases h : searchB p (acc ++ chunkContribution c) = true
      · refine ⟨[c], 1, false, ?_⟩
        simp [h]
      · rw [if_neg (by simpa using h)]
        obtain ⟨new, n, timed, hrec⟩ := ih rest (acc ++ chunkContribution c)
          (sent ++ chunkKeystrokes c) (chunks ++ [c]) (iters + 1)
        refine ⟨c :: new, n + 1, timed, ?_⟩
        rw [hrec]
        have he : iters + 1 + n = iters + (n + 1) := by omega
        rw [he]
        simp

/-! ## Claim theorems: the `execute_command` buffer (C2) -/

/-- C2 counterexample: the buffer `execute_command` matches the prompt
against is NOT the normalization of the full accumulated raw output — a
backspace at the front of the second chunk cannot erase the final character
of the first chunk, because the source cleans each chunk separately before
accumulating. -/
theorem C2_counterexample :
    (exec_trace (reLit "b".toList) [some "a".toList, some "\x08b".toList] 5).raw =
      "ab".toList ∧
    clean (removeAll endMarker (removeAll moreMarker
      ((exec_trace (reLit "b".toList)
        [some "a".toList, some "\x08b".toList] 5).chunks.flatten))) = "b".toList ∧
    "ab".toList ≠ "b".toList := by
  decide

/-- C2 (amended): the buffer `execute_command` tests the prompt against is
the CONCATENATION OF THE PER-CHUNK NORMALIZATIONS of the received chunks
(each chunk has its pagination markers removed and is then cleaned, and the
results are concatenated); this differs from normalizing the concatenated
raw stream when a backspace or escape sequence spans a chunk boundary. -/
theorem C2_amended (p : RegularExpression Char) (events : List (Option (List Char)))
    (budget : Nat) :
    (exec_trace p events budget).raw =
      ((exec_trace p events budget).chunks.map chunkContribution).flatten := by
  obtain ⟨new, n, timed, h⟩ := execLoop_shape p budget events [] [] [] 0
  unfold exec_trace
  rw [h]
  simp

/-! ## Claim theorems: pagination keystrokes (C3) -/

/-- The keystrokes sent for one chunk contain exactly one space iff the raw
chunk contains the `--More--` marker (regardless of how many occurrences the
chunk holds). -/
lemma count_space_chunkKeystrokes (c : List Char) :
    (chunkKeystrokes c).count [' '] =
      if containsSub moreMarker c then 1 else 0 := by
  unfold chunkKeystrokes processChunk
  by_cases hm : containsSub moreMarker c = true
  · by_cases he : containsSub endMarker (removeAll moreMarker c) = true
    · simp [hm, he]
    · simp [hm, Bool.eq_false_iff.mpr he]
  · by_cases he : containsSub endMarker c = true
    · simp [Bool.eq_false_iff.mpr hm, he]
    · simp [Bool.eq_false_iff.mpr hm, Bool.eq_false_iff.mpr he]

/-- Summing the previous lemma over a list of chunks. -/
lemma count_spaces_keystrokes : ∀ chunks : List (List Char),
    ((chunks.map chunkKeystrokes).flatten).count [' '] =
      chunks.countP (fun c => containsSub moreMarker c) := by
  intro chunks
  induction chunks with
  | nil => rfl
  | cons c cs ih =>
    simp only [List.map_cons, List.flatten_cons, List.count_append, ih,
      List.countP_cons, count_space_chunkKeystrokes]
    by_cases hm : containsSub moreMarker c = true
    · simp [hm, Nat.add_comm]
    · simp [Bool.eq_false_iff.mpr hm]

/-- C3 counterexample: two `--More--` occurrences arriving inside ONE
received chunk trigger only ONE advance space — the source sends one space
per chunk that contains the marker, not one per occurrence. -/
theorem C3_counterexample :
    countOcc moreMarker
      ((exec_trace (reLit "PR".toList) [some "--More----More--PR".toList] 5).chunks.flatten)
      = 2 ∧
    ((exec_trace (reLit "PR".toList)
      [some "--More----More--PR".toList] 5).pagerSent).count [' '] = 1 := by
  decide

/-- C3 (amended): in every run of `execute_command`'s receive loop, exactly
one advance space is sent PER RECEIVED CHUNK that contains at least one
`--More--` occurrence (all occurrences inside the chunk are then removed in
one left-to-right pass before the chunk is cleaned and accumulated); several
occurrences inside one chunk still yield a single space. -/
theorem C3_amended (p : RegularExpression Char) (events : List (Option (List Char)))
    (budget : Nat) :
    ((exec_trace p events budget).pagerSent).count [' '] =
      (exec_trace p events budget).chunks.countP
        (fun c => containsSub moreMarker c) := by
  obtain ⟨new, n, timed, h⟩ := execLoop_shape p budget events [] [] [] 0
  unfold exec_trace
  rw [h]
  simp [count_spaces_keystrokes]

/-! ## Lemmas: `searchB` and `splitlines` -/

/-- A match found in `t` is still found in `u ++ t`. -/
lemma searchB_append_left (p : RegularExpression Char) :
    ∀ u t : List Char, searchB p t = true → searchB p (u ++ t) = true := by
  intro u t h
  induction u with
  | nil => simpa using h
  | cons a u ih =>
    show (matchesHere p (a :: (u ++ t)) || searchB p (u ++ t)) = true
    rw [ih]
    simp

/-- A match found after dropping a prefix (e.g. by `lstrip`) was already a
match in the original string. -/
lemma searchB_of_dropWhile (p : RegularExpression Char) (q : Char → Bool)
    (l : List Char) (h : searchB p (l.dropWhile q) = true) :
    searchB p l = true := by
  have h2 := searchB_append_left p (l.takeWhile q) _ h
  rwa [List.takeWhile_append_dropWhile] at h2

/-- A pattern that matches the empty string is found by `re.search` in every
string. -/
lemma searchB_nil_all (p : RegularExpression Char) (h : searchB p [] = true) :
    ∀ s : List Char, searchB p s = true := by
  have hm : p.rmatch [] = true := by simpa [searchB, matchesHere] using h
  intro s
  cases s with
  | nil => exact h
  | cons c cs =>
    show (matchesHere p (c :: cs) || searchB p cs) = true
    have hh : matchesHere p (c :: cs) = true := by
      unfold matchesHere
      rw [List.any_eq_true]
      exact ⟨[], by simp [List.mem_inits], hm⟩
    rw [hh]
    simp

/-- Unfolding of `slGo` on a cons. -/
lemma slGo_cons (flag : Bool) (cur : List Char) (c : Char) (rest : List Char) :
    slGo flag cur (c :: rest) =
      (if c = '\n' && flag then slGo false cur rest
       else if isLineBreak c then cur.reverse :: slGo (c = '\r') [] rest
       else slGo false (c :: cur) rest) := rfl

/-- Unfolding of `slGo` on nil. -/
lemma slGo_nilEq (flag : Bool) (cur : List Char) :
    slGo flag cur [] = (if cur.isEmpty then [] else [cur.reverse]) := rfl

/-- Every line produced by the splitter is free of line-break characters. -/
lemma slGo_mem_breakfree :
    ∀ (l : List Char) (flag : Bool) (cur : List Char),
      (∀ ch ∈ cur, isLineBreak ch = false) →
      ∀ x ∈ slGo flag cur l, ∀ ch ∈ x, isLineBreak ch = false := by
  intro l
  induction l with
  | nil =>
    intro flag cur hcur x hx ch hch
    rw [slGo_nilEq] at hx
    by_cases he : cur.isEmpty = true
    · rw [if_pos he] at hx
      cases hx
    · rw [if_neg he] at hx
      have : x = cur.reverse := by simpa using hx
      subst this
      exact hcur ch (by simpa using hch)
  | cons c rest ih =>
    intro flag cur hcur x hx ch hch
    rw [slGo_cons] at hx
    split at hx
    · exact ih false cur hcur x hx ch hch
    · split at hx
      · rcases List.mem_cons.mp hx with hx | hx
        · subst hx
          exact hcur ch (by simpa using hch)
        · exact ih (c = '\r') [] (by simp) x hx ch hch
      · next h2 =>
        refine ih false (c :: cur) ?_ x hx ch hch
        intro ch2 hch2
        rcases List.mem_cons.mp hch2 with h | h
        · subst h
          simpa using h2
        · exact hcur ch2 h

/-- Every line of `splitlines s` is free of line-break characters. -/
lemma mem_splitlines_breakfree (s : List Char) :
    ∀ x ∈ splitlines s, ∀ ch ∈ x, isLineBreak ch = false :=
  slGo_mem_breakfree s false [] (by simp)

/-- Scanning a break-free block just accumulates it into the current line. -/
lemma slGo_append_breakfree :
    ∀ (line cur rest : List Char),
      (∀ ch ∈ line, isLineBreak ch = false) →
      slGo false cur (line ++ rest) = slGo false (line.reverse ++ cur) rest := by
  intro line
  induction line with
  | nil => intro cur rest _; simp
  | cons c cs ih =>
    intro cur rest hbf
    have hc : isLineBreak c = false := hbf c (by simp)
    show slGo false cur (c :: (cs ++ rest)) = _
    rw [slGo_cons]
    rw [if_neg (by simp)]
    rw [if_neg (by simp [hc])]
    rw [ih (c :: cur) rest (fun ch hch => hbf ch (by simp [hch]))]
    simp

/-- Splitting a `"\n"`-join of break-free lines yields only those lines
(the join drops nothing except possibly one trailing empty line, hence
membership, which is all the claims need). -/
lemma mem_splitlines_joinLines :
    ∀ lines : List (List Char),
      (∀ l ∈ lines, ∀ ch ∈ l, isLineBreak ch = false) →
      ∀ x ∈ splitlines (joinLines lines), x ∈ lines := by
  intro lines
  induction lines with
  | nil =>
    intro _ x hx
    simp [splitlines, joinLines, slGo_nilEq] at hx
  | cons l ls ih =>
    intro hbf x hx
    have hl := hbf l (by simp)
    cases ls with
    | nil =>
      unfold splitlines at hx
      rw [show joinLines [l] = l from rfl, show (l : List Char) = l ++ [] by simp] at hx
      rw [slGo_append_breakfree l [] [] (by simpa using hl), slGo_nilEq] at hx
      by_cases he : (l.reverse ++ []).isEmpty = true
      · rw [if_pos he] at hx
        cases hx
      · rw [if_neg he] at hx
        have : x = l := by simpa using hx
        simp [this]
    | cons l2 ls2 =>
      unfold splitlines at hx
      rw [show joinLines (l :: l2 :: ls2) = l ++ '\n' :: joinLines (l2 :: ls2) from rfl] at hx
      rw [slGo_append_breakfree l [] ('\n' :: joinLines (l2 :: ls2)) hl] at hx
      rw [slGo_cons] at hx
      rw [if_neg (by simp)] at hx
      rw [if_pos (by decide)] at hx
      rcases List.mem_cons.mp hx with hx | hx
      · subst hx
        simp
      · have hx2 : x ∈ splitlines (joinLines (l2 :: ls2)) := by
          unfold splitlines
          have : (decide ('\n' = '\r')) = false := by decide
          simpa [this] using hx
        exact List.mem_cons.mpr (Or.inr (ih (fun a ha => hbf a (by simp [ha])) x hx2))

/-! ## Claim theorems: output filtering (C7) -/

/-- Every line of `dedent (filter_lines raw pats)` fails every pattern of
`pats`: filtering keeps only lines with no match, and de-indenting only
drops a prefix of a line, which cannot create a match. -/
lemma searchB_dedent_filter_lines (raw : List Char)
    (pats : List (RegularExpression Char)) :
    ∀ line ∈ splitlines (dedent (filter_lines raw pats)),
      ∀ p ∈ pats, searchB p line = false := by
  intro line hline p hp
  have hFbf : ∀ l ∈ (splitlines raw).filter
      (fun l => !(pats.any fun q => searchB q l)),
      ∀ ch ∈ l, isLineBreak ch = false := by
    intro l hl
    exact mem_splitlines_breakfree raw l (List.mem_of_mem_filter hl)
  have hG'bf : ∀ l ∈ (splitlines (joinLines ((splitlines raw).filter
      (fun l => !(pats.any fun q => searchB q l))))).map lstrip,
      ∀ ch ∈ l, isLineBreak ch = false := by
    intro l hl ch hch
    obtain ⟨g, hg, hgl⟩ := List.mem_map.mp hl
    subst hgl
    have hch2 : ch ∈ g := (List.dropWhile_sublist _).subset hch
    exact hFbf g (mem_splitlines_joinLines _ hFbf g hg) ch hch2
  have hlineG : line ∈ (splitlines (joinLines ((splitlines raw).filter
      (fun l => !(pats.any fun q => searchB q l))))).map lstrip :=
    mem_splitlines_joinLines _ hG'bf line hline
  obtain ⟨g, hg, hgl⟩ := List.mem_map.mp hlineG
  have hgF := mem_splitlines_joinLines _ hFbf g hg
  have hpred : (pats.any fun q => searchB q g) = false := by
    simpa using (List.mem_filter.mp hgF).2
  have hgfalse : searchB p g = false := by
    simpa using List.any_eq_false.mp hpred p hp
  subst hgl
  cases hq : searchB p (lstrip g) with
  | false => rfl
  | true =>
    exact absurd (searchB_of_dropWhile p isPySpace g hq) (by simp [hgfalse])

/-- C7 counterexample: a command containing regex metacharacters, here
`"1+2"`, is compiled by `filter_lines` AS A REGEX (one-or-more `1` then
`2`), which does not match the literal text `1+2`; the command echo line
therefore survives into the returned output. -/
theorem C7_counterexample :
    execute_command
      (RegularExpression.comp
        (RegularExpression.comp (RegularExpression.char '1')
          (RegularExpression.star (RegularExpression.char '1')))
        (RegularExpression.char '2'))
      (reLit "PR".toList)
      [some "1+2\nPR".toList] 5 = some "1+2".toList ∧
    "1+2".toList ∈ splitlines "1+2".toList ∧
    containsSub "1+2".toList "1+2".toList = true := by
  decide

/-- C7 (amended): every line of the text returned by `execute_command`
matches NEITHER the command COMPILED AS A REGEX nor the prompt pattern (the
source passes the raw command string to `re.compile`); a command containing
regex metacharacters can therefore leave its literal echo in the output. -/
theorem C7_amended (cmdRe promptRe : RegularExpression Char)
    (events : List (Option (List Char))) (budget : Nat) (out line : List Char)
    (hout : execute_command cmdRe promptRe events budget = some out)
    (hline : line ∈ splitlines out) :
    searchB cmdRe line = false ∧ searchB promptRe line = false := by
  unfold execute_command at hout
  dsimp only at hout
  split at hout
  · exact Option.noConfusion hout
  · have hout2 := Option.some.inj hout
    subst hout2
    exact ⟨searchB_dedent_filter_lines _ [cmdRe, promptRe] line hline cmdRe (by simp),
           searchB_dedent_filter_lines _ [cmdRe, promptRe] line hline promptRe (by simp)⟩

/-- Witness for C7: a concrete run returning the single line `a`, on which
neither compiled pattern matches. -/
theorem C7_witness :
    searchB (reLit "c".toList) "a".toList = false ∧
    searchB (reLit "PR".toList) "a".toList = false :=
  C7_amended (reLit "c".toList) (reLit "PR".toList) [some "a\nPR".toList] 5
    "a".toList "a".toList (by decide) (by decide)

/-! ## Claim theorems: empty-matching prompt (C10) -/

/-- When the prompt pattern matches everything, the receive loop stops in
its very first iteration: if a chunk was already available it is received
FIRST (the receive precedes the prompt test inside an iteration), otherwise
nothing is consumed. -/
lemma exec_trace_first_iter (p : RegularExpression Char)
    (events : List (Option (List Char))) (budget : Nat)
    (hall : ∀ s, searchB p s = true) :
    exec_trace p events budget =
      (match events with
       | some c :: _ => ⟨chunkContribution c, chunkKeystrokes c, [c], 1, false⟩
       | none :: _ => ⟨[], [], [], 1, false⟩
       | [] => ⟨[], [], [], 1, false⟩) := by
  unfold exec_trace
  match events, budget with
  | [], 0 => rw [execLoop_nil_zero, if_pos (hall [])]
  | [], b + 1 => rw [execLoop_nil_succ, if_pos (hall [])]
  | none :: rest, 0 => rw [execLoop_cons_none_zero, if_pos (hall [])]
  | none :: rest, b + 1 => rw [execLoop_cons_none_succ, if_pos (hall [])]
  | some c :: rest, 0 =>
    rw [execLoop_cons_some_zero, if_pos (hall _)]
    simp
  | some c :: rest, b + 1 =>
    rw [execLoop_cons_some_succ, if_pos (hall _)]
    simp

/-- When the prompt matches every line, `filter_lines` drops every line and
the final output is empty. -/
lemma dedent_filter_lines_all_match (raw : List Char)
    (cmdRe promptRe : RegularExpression Char)
    (hall : ∀ s, searchB promptRe s = true) :
    dedent (filter_lines raw [cmdRe, promptRe]) = [] := by
  unfold filter_lines
  have h : (splitlines raw).filter
      (fun line => !([cmdRe, promptRe].any fun p => searchB p line)) = [] := by
    apply List.filter_eq_nil_iff.mpr
    intro a _
    simp [hall a]
  rw [h]
  rfl

/-- C10 counterexample: with a prompt matching the empty string and a chunk
already available at the first poll, `execute_command` DOES consume that
chunk (the receive happens before the prompt test inside the loop
iteration), contrary to the claim that no data is consumed. -/
theorem C10_counterexample :
    searchB RegularExpression.epsilon [] = true ∧
    (exec_trace RegularExpression.epsilon [some "hello".toList] 5).chunks =
      ["hello".toList] := by
  decide

/-- C10 (amended): for every prompt pattern matching the empty string,
`execute_command` breaks out of its first loop iteration and returns the
empty string (the prompt matches the buffer immediately and then every line
is filtered out); if a chunk is ready at the first poll exactly that one
chunk is consumed — the receive precedes the prompt test — and otherwise
nothing is consumed. -/
theorem C10_amended (cmdRe promptRe : RegularExpression Char)
    (events : List (Option (List Char))) (budget : Nat)
    (h : searchB promptRe [] = true) :
    execute_command cmdRe promptRe events budget = some [] ∧
    (exec_trace promptRe events budget).iters = 1 ∧
    (exec_trace promptRe events budget).chunks.length ≤ 1 ∧
    (∀ c rest, events = some c :: rest →
      (exec_trace promptRe events budget).chunks = [c]) ∧
    (∀ rest, events = none :: rest →
      (exec_trace promptRe events budget).chunks = []) ∧
    (events = [] → (exec_trace promptRe events budget).chunks = []) := by
  have hall := searchB_nil_all promptRe h
  have hfirst := exec_trace_first_iter promptRe events budget hall
  have hcmd : execute_command cmdRe promptRe events budget = some [] := by
    unfold execute_command
    rw [hfirst]
    match events with
    | [] =>
      show some (dedent (filter_lines [] [cmdRe, promptRe])) = some []
      rw [dedent_filter_lines_all_match [] cmdRe promptRe hall]
    | none :: rest =>
      show some (dedent (filter_lines [] [cmdRe, promptRe])) = some []
      rw [dedent_filter_lines_all_match [] cmdRe promptRe hall]
    | some c :: rest =>
      show some (dedent (filter_lines (chunkContribution c) [cmdRe, promptRe])) = some []
      rw [dedent_filter_lines_all_match (chunkContribution c) cmdRe promptRe hall]
  refine ⟨hcmd, ?_, ?_, ?_, ?_, ?_⟩
  · rw [hfirst]
    match events with
    | [] => rfl
    | none :: rest => rfl
    | some c :: rest => rfl
  · rw [hfirst]
    match events with
    | [] => simp
    | none :: rest => simp
    | some c :: rest => simp
  · intro c rest hev
    subst hev
    rw [hfirst]
  · intro rest hev
    subst hev
    rw [hfirst]
  · intro hev
    subst hev
    rw [hfirst]

/-- Witness for C10: prompt `ε` (matches the empty string), one available
chunk: the command returns the empty output having consumed exactly that
chunk. -/
theorem C10_witness :
    execute_command (reLit "c".toList) RegularExpression.epsilon
      [some "hi".toList] 5 = some [] ∧
    (exec_trace RegularExpression.epsilon [some "hi".toList] 5).chunks =
      ["hi".toList] := by
  have h := C10_amended (reLit "c".toList) RegularExpression.epsilon
    [some "hi".toList] 5 (by decide)
  exact ⟨h.1, h.2.2.2.1 "hi".toList [] rfl⟩

/-! ## Claim theorems: the script runner (C9) -/

/-- Unfolding of one step of the command loop. -/
lemma runCommands_cons (execOk : Nat → Bool) (idx : Nat) (raw : List Char)
    (rest : List (List Char)) :
    runCommands execOk idx (raw :: rest) =
      (if (pyStrip raw).isEmpty then runCommands execOk idx rest
       else if execOk idx then
         (pyStrip raw :: (runCommands execOk (idx + 1) rest).1,
          (runCommands execOk (idx + 1) rest).2)
       else ([pyStrip raw], true)) := rfl

/-- Abort semantics of the command loop: when it reports an error, the
failing command is the LAST executed one — its oracle index is the last
used — and every earlier executed command succeeded; when it reports
success, every executed command succeeded. -/
lemma runCommands_props (execOk : Nat → Bool) :
    ∀ (lines : List (List Char)) (idx : Nat),
      ((runCommands execOk idx lines).2 = true →
        (runCommands execOk idx lines).1 ≠ [] ∧
        execOk (idx + ((runCommands execOk idx lines).1.length - 1)) = false ∧
        ∀ j, j < (runCommands execOk idx lines).1.length - 1 →
          execOk (idx + j) = true) ∧
      ((runCommands execOk idx lines).2 = false →
        ∀ j, j < (runCommands execOk idx lines).1.length →
          execOk (idx + j) = true) := by
  intro lines
  induction lines with
  | nil =>
    intro idx
    constructor
    · intro hfalse
      simp [runCommands] at hfalse
    · intro _ j hj
      simp [runCommands] at hj
  | cons raw rest ih =>
    intro idx
    by_cases hb : (pyStrip raw).isEmpty = true
    · rw [runCommands_cons, if_pos hb]
      exact ih idx
    · rw [runCommands_cons, if_neg hb]
      by_cases hok : execOk idx = true
      · rw [if_pos hok]
        obtain ⟨ih1, ih2⟩ := ih (idx + 1)
        constructor
        · intro herr
          obtain ⟨hne, hfail, hbefore⟩ := ih1 herr
          have hlen : 1 ≤ (runCommands execOk (idx + 1) rest).1.length :=
            List.length_pos.mpr hne
          refine ⟨by simp, ?_, ?_⟩
          · have he : idx + ((pyStrip raw :: (runCommands execOk (idx + 1) rest).1).length - 1)
                = (idx + 1) + ((runCommands execOk (idx + 1) rest).1.length - 1) := by
              simp only [List.length_cons]
              omega
            rw [he]
            exact hfail
          · intro j hj
            match j with
            | 0 => simpa using hok
            | j + 1 =>
              have hj2 : j < (runCommands execOk (idx + 1) rest).1.length - 1 := by
                simp only [List.length_cons] at hj
                omega
              have := hbefore j hj2
              have he : idx + (j + 1) = idx + 1 + j := by omega
              rw [he]
              exact this
        · intro herr j hj
          match j with
          | 0 => simpa using hok
          | j + 1 =>
            have hj2 : j < (runCommands execOk (idx + 1) rest).1.length := by
              simp only [List.length_cons] at hj
              omega
            have := ih2 herr j hj2
            have he : idx + (j + 1) = idx + 1 + j := by omega
            rw [he]
            exact this
      · rw [if_neg hok]
        constructor
        · intro _
          have hfalse : execOk idx = false := by
            cases hv : execOk idx with
            | false => rfl
            | true => exact absurd hv hok
          refine ⟨by simp, by simpa using hfalse, ?_⟩
          intro j hj
          simp at hj
        · intro hfalse
          exact absurd hfalse (by simp)

/-- C9 counterexample: when the configured commands file does not exist,
`execute_commands_from_file` raises `FileNotFoundError` BEFORE entering the
try/finally, so `confirm_close` does NOT run on that exit path — the claim
that `close()` runs on every exit path of the runner fails there. -/
theorem C9_counterexample :
    (execute_commands_from_file CommandsSource.missing (fun _ => true)).raised = true ∧
    (execute_commands_from_file CommandsSource.missing (fun _ => true)).closed = false :=
  ⟨rfl, rfl⟩

/-- C9 (amended): once the commands file is specified and readable, any
command failure aborts the remaining commands — the failing command is the
last one executed and all earlier ones succeeded — and `confirm_close` runs
on every exit path of the command loop, error or not; only the two
validation failures (no file configured / file missing), which raise before
the try/finally, skip `confirm_close`. -/
theorem C9_amended (lines : List (List Char)) (execOk : Nat → Bool) :
    (execute_commands_from_file (CommandsSource.present lines) execOk).closed = true ∧
    ((execute_commands_from_file (CommandsSource.present lines) execOk).raised = true →
      (execute_commands_from_file (CommandsSource.present lines) execOk).executed ≠ [] ∧
      execOk ((execute_commands_from_file (CommandsSource.present lines) execOk).executed.length - 1) = false ∧
      ∀ j, j < (execute_commands_from_file (CommandsSource.present lines) execOk).executed.length - 1 →
        execOk j = true) ∧
    ((execute_commands_from_file (CommandsSource.present lines) execOk).raised = false →
      ∀ j, j < (execute_commands_from_file (CommandsSource.present lines) execOk).executed.length →
        execOk j = true) := by
  obtain ⟨h1, h2⟩ := runCommands_props execOk lines 0
  refine ⟨rfl, ?_, ?_⟩
  · intro herr
    obtain ⟨hne, hfail, hbefore⟩ := h1 herr
    exact ⟨hne, by simpa using hfail, fun j hj => by simpa using hbefore j hj⟩
  · intro herr j hj
    simpa using h2 herr j hj

/-- Witness for C9: a four-line script (one blank) whose second executed
command fails: the trace is closed, execution stopped at the failure. -/
theorem C9_witness :
    (execute_commands_from_file
      (CommandsSource.present ["a".toList, "".toList, " b ".toList, "c".toList])
      (fun i => decide (i = 0))).closed = true ∧
    (execute_commands_from_file
      (CommandsSource.present ["a".toList, "".toList, " b ".toList, "c".toList])
      (fun i => decide (i = 0))).executed ≠ [] := by
  have h := C9_amended ["a".toList, "".toList, " b ".toList, "c".toList]
    (fun i => decide (i = 0))
  exact ⟨h.1, (h.2.1 (by decide)).1⟩

end SshOrch
